import Mathlib

/-!
A verification development for the data pipeline of a labor-statistics
dashboard.  The pipeline consists of a collector (`collect.py`: fetch,
normalize, merge with deduplication and per-series retention) and a
metrics layer (`app.py`: year-over-year percent change, indexed-to-100
rescaling, time-window filtering).

Modelling conventions of this shallow embedding:
* `float64` values are modelled as exact rationals (`ℚ`);
* dates (always normalized to the first day of a month) are modelled as a
  month index `year * 12 + (month - 1) : ℤ`, so subtracting a pandas
  month offset of `n` is subtracting `n` on the index;
* pandas dataframes are modelled as `List` of records, and the pandas
  sorts are modelled as a stable insertion sort on the same keys
  (`sort_values` on `["series_id", "date"]` resp. `["date"]`);
* Python string comparison is code-point lexicographic comparison,
  modelled on the character lists underlying `String`;
* Python `int(s)` / `float(s)` are modelled by partial parsers for
  (signed) integer and finite decimal literals; exceptional control flow
  is modelled with `Except` / `Option`.
-/

/-- One row of the observation table, as written by `collect.py` and read
back by `app.py`: columns `series_name, series_id, date, value, period,
periodName, year`. -/
structure ObsRec where
  series_name : String
  series_id : String
  date : Int
  value : ℚ
  period : String
  periodName : String
  year : Int
deriving DecidableEq

/-- Code-point lexicographic comparison of character lists (the order
pandas uses when sorting a string column). -/
def charListLt : List Char → List Char → Bool
  | _, [] => false
  | [], _ :: _ => true
  | a :: as, b :: bs =>
    decide (a.toNat < b.toNat) || (a.toNat == b.toNat && charListLt as bs)

/-- Lexicographic order on strings, via their character lists. -/
def strLt (s t : String) : Bool := charListLt s.data t.data

/-- The sort key of `sort_values(["series_id", "date"])`: lexicographic on
`(series_id, date)`, non-strict. -/
def keyLE (a b : ObsRec) : Prop :=
  strLt a.series_id b.series_id = true ∨ (a.series_id = b.series_id ∧ a.date ≤ b.date)

instance : DecidableRel keyLE := fun a b =>
  inferInstanceAs (Decidable (strLt a.series_id b.series_id = true ∨
    (a.series_id = b.series_id ∧ a.date ≤ b.date)))

/-- The strict version of the sort key; total on tables whose
`(series_id, date)` keys are pairwise distinct. -/
def keyLT (a b : ObsRec) : Prop :=
  strLt a.series_id b.series_id = true ∨ (a.series_id = b.series_id ∧ a.date < b.date)

instance : DecidableRel keyLT := fun a b =>
  inferInstanceAs (Decidable (strLt a.series_id b.series_id = true ∨
    (a.series_id = b.series_id ∧ a.date < b.date)))

/-- `df.sort_values(["series_id", "date"])`, modelled as a stable sort. -/
def sortRows (l : List ObsRec) : List ObsRec := List.insertionSort keyLE l

/-- The date-only sort key used inside the retention step
(`g.sort_values("date")`). -/
def dateLE (a b : ObsRec) : Prop := a.date ≤ b.date

instance : DecidableRel dateLE := fun a b =>
  inferInstanceAs (Decidable (a.date ≤ b.date))

/-- The `(series_id, date)` identity key used for deduplication. -/
def obsKey (r : ObsRec) : String × Int := (r.series_id, r.date)

/-- The rows of one `groupby("series_id")` group of the sorted table, in
group order (pandas keeps the sorted row order inside each group). -/
def seriesGroup (rows : List ObsRec) (sid : String) : List ObsRec :=
  (sortRows rows).filter (fun r => r.series_id == sid)

/-- The group keys of `groupby("series_id")`, in order of first appearance
(on a table sorted by `series_id` this is the sorted key order pandas
uses). -/
def sidList (l : List ObsRec) : List String :=
  (l.map (fun r => r.series_id)).dedup

/-- `compute_indexed_100` of `app.py`, as the value it assigns to row `r`
of its input `df_in`: the input is re-sorted by `(series_id, date)`, each
series group takes its first row as base, a zero base yields null for the
whole group, otherwise each row is scaled to `value / base * 100`. -/
def compute_indexed_100 (df_in : List ObsRec) (r : ObsRec) : Option ℚ :=
  match (seriesGroup df_in r.series_id).head? with
  | none => none
  | some b => if b.value = 0 then none else some (r.value / b.value * 100)

/-- `groupby("series_id")["value"].pct_change(12) * 100` applied to one
group's value column: entry `i` is null for the first 12 positions and
`(v[i] / v[i-12] - 1) * 100` afterwards.  The lookback is positional
(12 rows earlier inside the group), exactly as `pct_change(12)`. -/
def yoyList (vs : List ℚ) : List (Option ℚ) :=
  (List.range vs.length).map (fun i =>
    if 12 ≤ i then some ((vs.getD i 0 / vs.getD (i - 12) 0 - 1) * 100) else none)

/-- The full loaded table together with its derived `yoy_pct` column
(`df["yoy_pct"] = df.groupby("series_id")["value"].pct_change(12) * 100.0`
computed on the whole table): the sorted table is the concatenation of its
series groups, and each group is paired positionally with its `yoyList`. -/
def withYoy (rows : List ObsRec) : List (ObsRec × Option ℚ) :=
  (sidList (sortRows rows)).flatMap (fun sid =>
    (seriesGroup rows sid).zip (yoyList ((seriesGroup rows sid).map (fun r => r.value))))

/-- The "Last 12 months" time-window filter of `app.py`:
`cutoff = latest_overall_date - DateOffset of 13 months` (the source uses
13, commented "Use 13 months for stability"), keeping rows with
`date >= cutoff`.  On an empty table the pandas comparison with `NaT` is
everywhere false. -/
def applyLast12 (t : List (ObsRec × Option ℚ)) : List (ObsRec × Option ℚ) :=
  match (t.map (fun p => p.1.date)).max? with
  | some m => t.filter (fun p => decide (m - 13 ≤ p.1.date))
  | none => []

/-- Transcription of the spec's sentence for the last-N-months window with
N = 12 ("computes a cutoff date = (latest observed date across the whole
table) − N months, and keeps records with `date >= cutoff`", "for the
\"Last 12 months\" window, N = 12"), written only to be compared with
`applyLast12`. -/
def specWindowN12 (t : List (ObsRec × Option ℚ)) : List (ObsRec × Option ℚ) :=
  match (t.map (fun p => p.1.date)).max? with
  | some m => t.filter (fun p => decide (m - 12 ≤ p.1.date))
  | none => []

/-- Transcription of the spec's YoY formula ("`yoy_pct[i] = (value[i] /
value[i-12] - 1) * 100` when a record exactly 12 periods earlier exists
for the same series; otherwise null", with the lookback read as 12
calendar months), written only to be compared with the positional
`pct_change(12)` embedding. -/
def specYoyCalendar (rows : List ObsRec) (r : ObsRec) : Option ℚ :=
  match rows.find? (fun x => x.series_id == r.series_id && x.date == r.date - 12) with
  | some x => some ((r.value / x.value - 1) * 100)
  | none => none

/-- A Bool check that consecutive rows of a list are one calendar month
apart; used to express that a series history is gapless. -/
def contigChain : List ObsRec → Bool
  | a :: b :: rest => (b.date == a.date + 1) && contigChain (b :: rest)
  | _ => true

/-- A table is contiguous when every series group of its sorted form lists
consecutive calendar months. -/
def Contiguous (rows : List ObsRec) : Prop :=
  ∀ sid ∈ rows.map (fun r => r.series_id), contigChain (seriesGroup rows sid) = true

instance (rows : List ObsRec) : Decidable (Contiguous rows) :=
  List.decidableBAll (fun sid => contigChain (seriesGroup rows sid) = true)
    (rows.map (fun r : ObsRec => r.series_id))

/-- One raw item of the upstream BLS response, as consumed by
`normalize_records`; every field is read with `item.get`, so each may be
absent. -/
structure RawItem where
  period : Option String
  year : Option String
  value : Option String
  periodName : Option String
deriving DecidableEq

/-- One record produced by `normalize_records` in `collect.py`, before the
date string `f"{year}-{month:02d}-01"` is parsed: the year and month are
kept separately. -/
structure RawRec where
  series_name : String
  series_id : String
  year : Int
  month : Int
  value : ℚ
  period : String
  periodName : String
deriving DecidableEq

/-- The digits of a non-negative integer literal; `none` when the list is
empty or contains a non-digit. -/
def parseDigits? : List Char → Option Nat
  | [] => none
  | cs =>
    if cs.all (fun c => c.isDigit) then
      some (cs.foldl (fun n c => 10 * n + (c.toNat - 48)) 0)
    else none

/-- Model of Python `int(s)`: an optional sign followed by digits. -/
def parseInt? (s : String) : Option Int :=
  match s.data with
  | '-' :: rest => (parseDigits? rest).map (fun n => -(n : Int))
  | '+' :: rest => (parseDigits? rest).map (fun n => (n : Int))
  | cs => (parseDigits? cs).map (fun n => (n : Int))

/-- The value of a digit list read as a natural number (0 when empty). -/
def digitsVal (cs : List Char) : Nat :=
  cs.foldl (fun n c => 10 * n + (c.toNat - 48)) 0

/-- An unsigned finite decimal literal: digits with an optional decimal
point (`"12"`, `"12.5"`, `".5"`, `"12."`). -/
def parseUFrac? (cs : List Char) : Option ℚ :=
  let intPart := cs.takeWhile (fun c => c ≠ '.')
  match cs.dropWhile (fun c => c ≠ '.') with
  | [] => (parseDigits? intPart).map (fun n => (n : ℚ))
  | '.' :: fracPart =>
    if (intPart.all (fun c => c.isDigit) && fracPart.all (fun c => c.isDigit))
        && (decide (intPart ≠ []) || decide (fracPart ≠ [])) then
      some ((digitsVal intPart : ℚ) + (digitsVal fracPart : ℚ) / (10 ^ fracPart.length))
    else none
  | _ :: _ => none

/-- Model of Python `float(value_str)` inside `normalize_records`: the
argument is `item.get("value")`, so `none` models the `TypeError` of
`float(None)` and a malformed literal models the `ValueError`; both are
caught by the surrounding `except`, a parse success returns the finite
value. -/
def parseFloat? : Option String → Option ℚ
  | none => none
  | some s =>
    match s.data with
    | '-' :: rest => (parseUFrac? rest).map (fun q => -q)
    | '+' :: rest => parseUFrac? rest
    | cs => parseUFrac? cs

/-- Model of `period.startswith("M")`. -/
def startsWithM (s : String) : Bool :=
  match s.data with
  | 'M' :: _ => true
  | _ => false

/-- Model of the slice `period[1:]`. -/
def strTail (s : String) : String := String.mk (s.data.drop 1)

/-- One iteration of the `for item in raw_data` loop of
`normalize_records`: `ok none` models `continue`, `ok (some r)` models
`records.append(...)`, and `error` models an uncaught `ValueError` from
`int(period[1:])` or `int(year)`. -/
def normItem (series_name series_id : String) (it : RawItem) : Except String (Option RawRec) :=
  let period := it.period.getD ""
  let year := it.year.getD ""
  if !startsWithM period || period == "M13" then Except.ok none
  else
    match parseInt? (strTail period) with
    | none => Except.error "ValueError: invalid literal for int() with base 10"
    | some month_number =>
      match parseFloat? it.value with
      | none => Except.ok none
      | some v =>
        match parseInt? year with
        | none => Except.error "ValueError: invalid literal for int() with base 10"
        | some y =>
          Except.ok (some ⟨series_name, series_id, y, month_number, v, period,
            it.periodName.getD ""⟩)

/-- `normalize_records` of `collect.py`: iterates over the raw items,
skipping non-monthly periods and unparseable values, appending a record
otherwise; an uncaught exception in any iteration aborts the whole call. -/
def normalize_records (series_name series_id : String) (raw : List RawItem) :
    Except String (List RawRec) :=
  match raw with
  | [] => Except.ok []
  | it :: rest =>
    match normItem series_name series_id it with
    | Except.error e => Except.error e
    | Except.ok r? =>
      match normalize_records series_name series_id rest with
      | Except.error e => Except.error e
      | Except.ok rs =>
        Except.ok (match r? with | some r => r :: rs | none => rs)

/-- `pd.to_datetime(..., errors="coerce")` on the date string
`f"{year}-{month:02d}-01"` followed by `dropna`: only month numbers 1–12
yield a parseable first-of-month date. -/
def validMonth (r : RawRec) : Bool :=
  decide (1 ≤ r.month) && decide (r.month ≤ 12)

/-- A normalized record with a valid date, as a row of the observation
table (`date` becomes the month index of the first-of-month date). -/
def toObs (r : RawRec) : ObsRec :=
  ⟨r.series_name, r.series_id, r.year * 12 + (r.month - 1), r.value, r.period,
    r.periodName, r.year⟩

/-- Helper for `drop_duplicates(keep="first")` semantics: keeps the first
record of each `(series_id, date)` key not already seen. -/
def dedupKeepFirstAux : List ObsRec → List (String × Int) → List ObsRec
  | [], _ => []
  | r :: rs, seen =>
    if obsKey r ∈ seen then dedupKeepFirstAux rs seen
    else r :: dedupKeepFirstAux rs (obsKey r :: seen)

/-- `drop_duplicates(subset=["series_id", "date"], keep="last")`: for each
key, only the last occurrence survives, rows keeping their relative
order. -/
def dropDupKeepLast (l : List ObsRec) : List ObsRec :=
  (dedupKeepFirstAux l.reverse []).reverse

/-- `g.sort_values("date").tail(24)`: the last 24 rows after sorting a
group by date. -/
def tail24 (g : List ObsRec) : List ObsRec := g.drop (g.length - 24)

/-- The retention step of `collect_data`:
`combined.groupby("series_id", group_keys=False).apply(lambda g:
g.sort_values("date").tail(24))` — per series, keep only the 24 most
recent rows. -/
def retain24 (l : List ObsRec) : List ObsRec :=
  (sidList l).flatMap (fun sid =>
    tail24 (List.insertionSort dateLE (l.filter (fun r => r.series_id == sid))))

/-- The dedup-and-sort stage of `collect_data` (lines concatenating the
existing table with the incoming rows, dropping duplicate
`(series_id, date)` keys keep-last, and re-sorting). -/
def dedupStage (old incoming : List ObsRec) : List ObsRec :=
  sortRows (dropDupKeepLast (old ++ incoming))

/-- The whole merge of `collect_data`: dedup stage followed by
retention. -/
def merged_table (old incoming : List ObsRec) : List ObsRec :=
  retain24 (dedupStage old incoming)

/-- `collect_data` from the point where all series have been fetched and
normalized: raises when no records were collected, otherwise converts the
new records to table rows (dropping unparseable dates), sorts them,
merges with the existing table when present, and returns the table that
is written to the CSV. -/
def collect_data (old : Option (List ObsRec)) (newRecords : List RawRec) :
    Except String (List ObsRec) :=
  if newRecords.isEmpty then Except.error "No records collected from BLS API."
  else
    Except.ok (merged_table (old.getD [])
      (sortRows ((newRecords.filter validMonth).map toObs)))

/-- The persisted store after a collection run: replaced by the merge
result on success, untouched when `collect_data` raises. -/
def storeAfterRun (old : Option (List ObsRec)) (newRecords : List RawRec) :
    Option (List ObsRec) :=
  match collect_data old newRecords with
  | Except.ok t => some t
  | Except.error _ => old

/-- A sample observation row used in concrete instances: one series tag
used as both name and id, a month index and a value. -/
def exR (sid : String) (d : Int) (v : ℚ) : ObsRec := ⟨sid, sid, d, v, "", "", 0⟩

/-- The 13-month synthetic series of the spec's YoY round-trip example:
values 100, 101, ..., 112 on 13 consecutive months. -/
def rows13 : List ObsRec :=
  [exR "A" 0 100, exR "A" 1 101, exR "A" 2 102, exR "A" 3 103, exR "A" 4 104,
   exR "A" 5 105, exR "A" 6 106, exR "A" 7 107, exR "A" 8 108, exR "A" 9 109,
   exR "A" 10 110, exR "A" 11 111, exR "A" 12 112]

/-- A series with a gap: two records of the same series exactly 12
calendar months apart with nothing in between. -/
def gapRows : List ObsRec := [exR "A" 0 100, exR "A" 12 110]

/-- 26 months of a single series, for exercising the 24-month
retention. -/
def manyRows : List ObsRec := (List.range 26).map (fun i => exR "A" i 1)

/-- A sample normalized record, for exercising the collection path. -/
def exRaw : RawRec := ⟨"A", "A", 2024, 1, 1, "M01", "January"⟩

theorem charListLt_irrefl : ∀ a : List Char, charListLt a a = false := by
  intro a
  induction a with
  | nil => rfl
  | cons x xs ih => simp [charListLt, ih]

theorem charListLt_trans (a : List Char) :
    ∀ b c, charListLt a b = true → charListLt b c = true → charListLt a c = true := by
  induction a with
  | nil =>
    intro b c hab hbc
    cases b with
    | nil => simp [charListLt] at hab
    | cons y ys =>
      cases c with
      | nil => simp [charListLt] at hbc
      | cons z zs => simp [charListLt]
  | cons x xs ih =>
    intro b c hab hbc
    cases b with
    | nil => simp [charListLt] at hab
    | cons y ys =>
      cases c with
      | nil => simp [charListLt] at hbc
      | cons z zs =>
        simp only [charListLt, Bool.or_eq_true, Bool.and_eq_true, decide_eq_true_eq,
          beq_iff_eq] at hab hbc ⊢
        rcases hab with h1 | ⟨h1, h1'⟩
        · rcases hbc with h2 | ⟨h2, h2'⟩
          · exact Or.inl (Nat.lt_trans h1 h2)
          · exact Or.inl (h2 ▸ h1)
        · rcases hbc with h2 | ⟨h2, h2'⟩
          · exact Or.inl (h1 ▸ h2)
          · exact Or.inr ⟨h1.trans h2, ih ys zs h1' h2'⟩

theorem charListLt_eq_of_not (a : List Char) :
    ∀ b, charListLt a b = false → charListLt b a = false → a = b := by
  induction a with
  | nil =>
    intro b hab _
    cases b with
    | nil => rfl
    | cons y ys => simp [charListLt] at hab
  | cons x xs ih =>
    intro b hab hba
    cases b with
    | nil => simp [charListLt] at hba
    | cons y ys =>
      simp only [charListLt, Bool.or_eq_false_iff, Bool.and_eq_false_iff,
        decide_eq_false_iff_not, Nat.not_lt, beq_eq_false_iff_ne, ne_eq] at hab hba
      have hxy : x.toNat = y.toNat := Nat.le_antisymm hba.1 hab.1
      have hx : x = y := Char.eq_of_val_eq (UInt32.ext hxy)
      rcases hab.2 with h | h
      · exact absurd hxy h
      · rcases hba.2 with h' | h'
        · exact absurd hxy.symm h'
        · exact hx ▸ congrArg (x :: ·) (ih ys h h')

theorem strLt_irrefl (s : String) : strLt s s = false := charListLt_irrefl s.data

theorem strLt_trans {s t u : String} (h1 : strLt s t = true) (h2 : strLt t u = true) :
    strLt s u = true := charListLt_trans s.data t.data u.data h1 h2

theorem strLt_eq_of_not {s t : String} (h1 : strLt s t = false) (h2 : strLt t s = false) :
    s = t := by
  have hd : s.data = t.data := charListLt_eq_of_not s.data t.data h1 h2
  cases s; cases t; exact congrArg String.mk hd

theorem keyLE_total (a b : ObsRec) : keyLE a b ∨ keyLE b a := by
  cases hab : strLt a.series_id b.series_id with
  | true => exact Or.inl (Or.inl hab)
  | false =>
    cases hba : strLt b.series_id a.series_id with
    | true => exact Or.inr (Or.inl hba)
    | false =>
      have hs : a.series_id = b.series_id := strLt_eq_of_not hab hba
      rcases le_total a.date b.date with h | h
      · exact Or.inl (Or.inr ⟨hs, h⟩)
      · exact Or.inr (Or.inr ⟨hs.symm, h⟩)

theorem keyLE_trans {a b c : ObsRec} (h1 : keyLE a b) (h2 : keyLE b c) : keyLE a c := by
  rcases h1 with h1 | ⟨h1, h1'⟩
  · rcases h2 with h2 | ⟨h2, h2'⟩
    · exact Or.inl (strLt_trans h1 h2)
    · exact Or.inl (h2 ▸ h1)
  · rcases h2 with h2 | ⟨h2, h2'⟩
    · exact Or.inl (h1 ▸ h2)
    · exact Or.inr ⟨h1.trans h2, h1'.trans h2'⟩

theorem keyLT_trans {a b c : ObsRec} (h1 : keyLT a b) (h2 : keyLT b c) : keyLT a c := by
  rcases h1 with h1 | ⟨h1, h1'⟩
  · rcases h2 with h2 | ⟨h2, h2'⟩
    · exact Or.inl (strLt_trans h1 h2)
    · exact Or.inl (h2 ▸ h1)
  · rcases h2 with h2 | ⟨h2, h2'⟩
    · exact Or.inl (h1 ▸ h2)
    · exact Or.inr ⟨h1.trans h2, h1'.trans h2'⟩

theorem keyLT_antisymm (a b : ObsRec) (h1 : keyLT a b) (h2 : keyLT b a) : a = b := by
  exfalso
  rcases h1 with h1 | ⟨h1, h1'⟩
  · rcases h2 with h2 | ⟨h2, h2'⟩
    · exact absurd (strLt_trans h1 h2) (by simp [strLt_irrefl])
    · rw [h2] at h1; exact absurd h1 (by simp [strLt_irrefl])
  · rcases h2 with h2 | ⟨h2, h2'⟩
    · rw [h1] at h2; exact absurd h2 (by simp [strLt_irrefl])
    · exact absurd (h1'.trans h2') (lt_irrefl _)

theorem sortRows_perm (l : List ObsRec) : (sortRows l).Perm l :=
  List.perm_insertionSort _ _

theorem mem_sortRows {r : ObsRec} {l : List ObsRec} : r ∈ sortRows l ↔ r ∈ l :=
  (sortRows_perm l).mem_iff

theorem sortRows_sorted (l : List ObsRec) : List.Sorted keyLE (sortRows l) :=
  @List.sorted_insertionSort _ keyLE _ ⟨keyLE_total⟩ ⟨fun _ _ _ => keyLE_trans⟩ l

theorem mem_seriesGroup {rows : List ObsRec} {sid : String} {r : ObsRec} :
    r ∈ seriesGroup rows sid ↔ r ∈ rows ∧ r.series_id = sid := by
  simp [seriesGroup, List.mem_filter, mem_sortRows]

theorem seriesGroup_pairwise_date (rows : List ObsRec) (sid : String) :
    List.Pairwise (fun a b : ObsRec => a.date ≤ b.date) (seriesGroup rows sid) := by
  have h1 : List.Pairwise keyLE (seriesGroup rows sid) :=
    (sortRows_sorted rows).sublist (List.filter_sublist _)
  refine List.Pairwise.imp_of_mem ?_ h1
  intro a b ha hb hab
  have hsa : a.series_id = sid := eq_of_beq (List.mem_filter.mp ha).2
  have hsb : b.series_id = sid := eq_of_beq (List.mem_filter.mp hb).2
  rcases hab with h | ⟨_, h⟩
  · rw [hsa, hsb] at h
    simp [strLt_irrefl] at h
  · exact h


theorem seriesGroup_head_spec {rows : List ObsRec} {r : ObsRec} (hr : r ∈ rows) :
    ∃ r0, (seriesGroup rows r.series_id).head? = some r0 ∧ r0 ∈ rows ∧
      r0.series_id = r.series_id ∧
      ∀ x ∈ rows, x.series_id = r.series_id → r0.date ≤ x.date := by
  have hrg : r ∈ seriesGroup rows r.series_id := mem_seriesGroup.mpr ⟨hr, rfl⟩
  have hpw := seriesGroup_pairwise_date rows r.series_id
  cases hg : seriesGroup rows r.series_id with
  | nil => rw [hg] at hrg; cases hrg
  | cons a t =>
    have hag : a ∈ seriesGroup rows r.series_id := by rw [hg]; exact List.mem_cons_self a t
    have hmem := mem_seriesGroup.mp hag
    refine ⟨a, rfl, hmem.1, hmem.2, ?_⟩
    intro x hx hxs
    have hxg : x ∈ seriesGroup rows r.series_id := mem_seriesGroup.mpr ⟨hx, hxs⟩
    rw [hg] at hxg hpw
    rcases List.mem_cons.mp hxg with h | h
    · exact le_of_eq (congrArg ObsRec.date h.symm)
    · exact List.rel_of_pairwise_cons hpw h

/-- C2: the indexed computation is scope-dependent: for every input subset
and every row in it, the base row is a chronologically earliest row of the
same series **within that subset**, and (for a nonzero base) the assigned
value is `value / base * 100`. -/
theorem indexed100_base_is_first_visible (rows : List ObsRec) (r : ObsRec) (hr : r ∈ rows) :
    ∃ r0, r0 ∈ rows ∧ r0.series_id = r.series_id ∧
      (∀ x ∈ rows, x.series_id = r.series_id → r0.date ≤ x.date) ∧
      (r0.value ≠ 0 → compute_indexed_100 rows r = some (r.value / r0.value * 100)) := by
  obtain ⟨r0, hh, hmem, hsid, hmin⟩ := seriesGroup_head_spec hr
  refine ⟨r0, hmem, hsid, hmin, fun hnz => ?_⟩
  simp [compute_indexed_100, hh, hnz]

/-- C7: when the chronologically earliest visible row of a series has
value 0, every row of that series gets a null indexed value (the division
is guarded, not raised). -/
theorem indexed100_zero_base_null (rows : List ObsRec) (r0 : ObsRec) (h0 : r0 ∈ rows)
    (hv : r0.value = 0)
    (hfirst : ∀ x ∈ rows, x.series_id = r0.series_id → x ≠ r0 → r0.date < x.date) :
    ∀ r ∈ rows, r.series_id = r0.series_id → compute_indexed_100 rows r = none := by
  intro r hr hsid
  obtain ⟨b, hh, hbmem, hbsid, hbmin⟩ := seriesGroup_head_spec hr
  have hb0 : b = r0 := by
    by_contra hne
    have h1 : r0.date < b.date := hfirst b hbmem (hbsid.trans hsid) hne
    have h2 : b.date ≤ r0.date := hbmin r0 h0 hsid.symm
    exact absurd h1 (not_lt.mpr h2)
  rw [hb0] at hh
  simp [compute_indexed_100, hh, hv]

theorem pairwise_keyLT_of_sorted {l : List ObsRec} (hle : List.Pairwise keyLE l)
    (hk : List.Pairwise (fun a b => obsKey a ≠ obsKey b) l) : List.Pairwise keyLT l := by
  refine (hle.and hk).imp ?_
  rintro a b ⟨hab, hne⟩
  rcases hab with h | ⟨h, h'⟩
  · exact Or.inl h
  · refine Or.inr ⟨h, lt_of_le_of_ne h' ?_⟩
    intro hd
    exact hne (by simp [obsKey, h, hd])

theorem sortRows_eq_of_perm {rows rows' : List ObsRec} (hp : rows.Perm rows')
    (hk : List.Pairwise (fun a b => obsKey a ≠ obsKey b) rows) :
    sortRows rows = sortRows rows' := by
  have hsymm : ∀ {x y : ObsRec}, obsKey x ≠ obsKey y → obsKey y ≠ obsKey x :=
    fun h => h.symm
  have hk1 : List.Pairwise (fun a b => obsKey a ≠ obsKey b) (sortRows rows) :=
    (List.Perm.pairwise_iff hsymm (sortRows_perm rows)).mpr hk
  have hk' : List.Pairwise (fun a b => obsKey a ≠ obsKey b) rows' :=
    (List.Perm.pairwise_iff hsymm hp).mp hk
  have hk2 : List.Pairwise (fun a b => obsKey a ≠ obsKey b) (sortRows rows') :=
    (List.Perm.pairwise_iff hsymm (sortRows_perm rows')).mpr hk'
  have hperm : (sortRows rows).Perm (sortRows rows') :=
    (sortRows_perm rows).trans (hp.trans (sortRows_perm rows').symm)
  exact @List.eq_of_perm_of_sorted _ keyLT ⟨keyLT_antisymm⟩ _ _ hperm
    (pairwise_keyLT_of_sorted (sortRows_sorted rows) hk1)
    (pairwise_keyLT_of_sorted (sortRows_sorted rows') hk2)

/-- C10: on tables with pairwise-distinct `(series_id, date)` keys, the
indexed computation is invariant under any permutation of the input rows,
because it re-sorts internally before choosing the base. -/
theorem indexed100_perm_invariant (rows rows' : List ObsRec) (hp : rows.Perm rows')
    (hk : List.Pairwise (fun a b => obsKey a ≠ obsKey b) rows) :
    ∀ r, compute_indexed_100 rows r = compute_indexed_100 rows' r := by
  intro r
  have hs : sortRows rows = sortRows rows' := sortRows_eq_of_perm hp hk
  simp only [compute_indexed_100, seriesGroup, hs]

/-- Witness for C2 at the spec's own example: full series `[50, 100, 150]`
indexes to 300 at the last row, while the post-filter subset `[100, 150]`
indexes the same row to 150. -/
theorem indexed100_base_is_first_visible_witness :
    (exR "A" 2 150 ∈ [exR "A" 0 50, exR "A" 1 100, exR "A" 2 150]) ∧
    (∃ r0, r0 ∈ [exR "A" 0 50, exR "A" 1 100, exR "A" 2 150] ∧
      r0.series_id = (exR "A" 2 150).series_id ∧
      (∀ x ∈ [exR "A" 0 50, exR "A" 1 100, exR "A" 2 150],
        x.series_id = (exR "A" 2 150).series_id → r0.date ≤ x.date) ∧
      (r0.value ≠ 0 → compute_indexed_100 [exR "A" 0 50, exR "A" 1 100, exR "A" 2 150]
        (exR "A" 2 150) = some ((exR "A" 2 150).value / r0.value * 100))) ∧
    compute_indexed_100 [exR "A" 0 50, exR "A" 1 100, exR "A" 2 150] (exR "A" 2 150) =
      some 300 ∧
    compute_indexed_100 [exR "A" 1 100, exR "A" 2 150] (exR "A" 2 150) = some 150 := by
  refine ⟨by decide, indexed100_base_is_first_visible _ _ (by decide), ?_, ?_⟩
  · have hh : (seriesGroup [exR "A" 0 50, exR "A" 1 100, exR "A" 2 150]
        ((exR "A" 2 150).series_id)).head? = some (exR "A" 0 50) := by decide
    rw [compute_indexed_100, hh]
    norm_num [exR]
  · have hh : (seriesGroup [exR "A" 1 100, exR "A" 2 150]
        ((exR "A" 2 150).series_id)).head? = some (exR "A" 1 100) := by decide
    rw [compute_indexed_100, hh]
    norm_num [exR]

/-- Witness for C7: a series starting at value 0 gets a null indexed value
on all its rows. -/
theorem indexed100_zero_base_null_witness :
    (exR "Z" 0 0).value = 0 ∧
    compute_indexed_100 [exR "Z" 0 0, exR "Z" 1 5] (exR "Z" 1 5) = none :=
  ⟨rfl, indexed100_zero_base_null [exR "Z" 0 0, exR "Z" 1 5] (exR "Z" 0 0) (by decide) rfl
    (by decide) (exR "Z" 1 5) (by decide) (by decide)⟩

/-- Witness for C10: reordering the input rows leaves every assigned
indexed value unchanged. -/
theorem indexed100_perm_invariant_witness :
    ([exR "A" 0 50, exR "A" 1 100].Perm [exR "A" 1 100, exR "A" 0 50]) ∧
    ∀ r, compute_indexed_100 [exR "A" 0 50, exR "A" 1 100] r =
      compute_indexed_100 [exR "A" 1 100, exR "A" 0 50] r :=
  ⟨by decide, indexed100_perm_invariant _ _ (by decide) (by decide)⟩

/-- Counterexample to C5 as stated: the source subtracts 13 months for the
"Last 12 months" window, not 12.  With a latest date at month 13, the
record at month 0 survives the source's filter although it is older than
`latest - 12`. -/
theorem last12_window_not_N12 :
    applyLast12 [(exR "A" 0 100, (none : Option ℚ)), (exR "A" 13 110, none)] ≠
      specWindowN12 [(exR "A" 0 100, (none : Option ℚ)), (exR "A" 13 110, none)] ∧
    (exR "A" 0 100, (none : Option ℚ)) ∈
      applyLast12 [(exR "A" 0 100, (none : Option ℚ)), (exR "A" 13 110, none)] ∧
    (([(exR "A" 0 100, (none : Option ℚ)), (exR "A" 13 110, none)].map
      (fun p => p.1.date)).max? = some 13) ∧
    ¬ ((13 : Int) - 12 ≤ (exR "A" 0 100).date) := by decide

/-- C5 amended: the "Last 12 months" window keeps exactly the records
whose date is at least the overall latest date minus 13 months (the
source's deliberate stability margin), where the latest date is the
maximum over the whole table. -/
theorem last12_window_keeps_ge_cutoff (t : List (ObsRec × Option ℚ)) (m : Int)
    (hm : (t.map (fun p => p.1.date)).max? = some m) :
    (m ∈ t.map (fun p => p.1.date) ∧ ∀ p ∈ t, p.1.date ≤ m) ∧
    ∀ p, p ∈ applyLast12 t ↔ p ∈ t ∧ m - 13 ≤ p.1.date := by
  refine ⟨⟨List.max?_mem max_choice hm, ?_⟩, ?_⟩
  · intro p hp
    have hall := (List.max?_le_iff (fun _ _ _ => max_le_iff) hm).mp (le_refl m)
    exact hall _ (List.mem_map_of_mem _ hp)
  · intro p
    simp [applyLast12, hm, List.mem_filter]

/-- Witness for the amended C5 at a concrete table. -/
theorem last12_window_keeps_ge_cutoff_witness :
    (([(exR "A" 0 100, (none : Option ℚ)), (exR "A" 13 110, none)].map
      (fun p => p.1.date)).max? = some 13) ∧
    ((exR "A" 0 100, (none : Option ℚ)) ∈
        applyLast12 [(exR "A" 0 100, (none : Option ℚ)), (exR "A" 13 110, none)] ↔
      (exR "A" 0 100, (none : Option ℚ)) ∈
        [(exR "A" 0 100, (none : Option ℚ)), (exR "A" 13 110, none)] ∧
      (13 : Int) - 13 ≤ (exR "A" 0 100).date) :=
  ⟨by decide,
    (last12_window_keeps_ge_cutoff _ 13 (by decide)).2 (exR "A" 0 100, (none : Option ℚ))⟩

/-- C6: an empty collection run fails with the collection error and leaves
the persisted store unchanged; a non-empty run replaces the store with the
merge result. -/
theorem empty_collection_rejected (old : Option (List ObsRec)) :
    collect_data old [] = Except.error "No records collected from BLS API." ∧
    storeAfterRun old [] = old ∧
    ∀ newRecords : List RawRec, newRecords ≠ [] →
      ∃ t, collect_data old newRecords = Except.ok t ∧
        storeAfterRun old newRecords = some t := by
  refine ⟨rfl, rfl, ?_⟩
  intro nr hnr
  have hne : nr.isEmpty = false := by
    cases nr with
    | nil => exact absurd rfl hnr
    | cons a l => rfl
  refine ⟨merged_table (old.getD []) (sortRows (List.map toObs (List.filter validMonth nr))),
    ?_, ?_⟩
  · simp [collect_data, hne]
  · simp [storeAfterRun, collect_data, hne]

/-- Witness for C6 at a concrete store and a concrete non-empty run. -/
theorem empty_collection_rejected_witness :
    collect_data (some [exR "A" 0 100]) [] =
      Except.error "No records collected from BLS API." ∧
    storeAfterRun (some [exR "A" 0 100]) [] = some [exR "A" 0 100] ∧
    ([exRaw] ≠ ([] : List RawRec)) ∧
    ∃ t, collect_data (some [exR "A" 0 100]) [exRaw] = Except.ok t ∧
      storeAfterRun (some [exR "A" 0 100]) [exRaw] = some t := by
  obtain ⟨h1, h2, h3⟩ := empty_collection_rejected (some [exR "A" 0 100])
  exact ⟨h1, h2, by decide, h3 [exRaw] (by decide)⟩

theorem normItem_ok_cond {sn sid : String} {it : RawItem} {r? : Option RawRec}
    (h : normItem sn sid it = Except.ok r?) :
    (startsWithM (it.period.getD "") = true ∧ it.period.getD "" ≠ "M13") →
    ((parseInt? (strTail (it.period.getD ""))).isSome = true ∧
      ((parseFloat? it.value).isSome = true →
        (parseInt? (it.year.getD "")).isSome = true)) := by
  rintro ⟨h1, h2⟩
  simp only [normItem] at h
  have hc : (!startsWithM (it.period.getD "") || (it.period.getD "" == "M13")) = false := by
    simp [h1, h2]
  rw [hc] at h
  simp only [Bool.false_eq_true, if_false] at h
  cases hpi : parseInt? (strTail (it.period.getD "")) with
  | none => rw [hpi] at h; cases h
  | some m =>
    rw [hpi] at h
    refine ⟨rfl, ?_⟩
    intro hv
    cases hf : parseFloat? it.value with
    | none => rw [hf] at hv; cases hv
    | some v =>
      rw [hf] at h
      cases hpy : parseInt? (it.year.getD "") with
      | none => rw [hpy] at h; cases h
      | some y => rfl

theorem normItem_ok_of_cond (sn sid : String) {it : RawItem}
    (hcond : (startsWithM (it.period.getD "") = true ∧ it.period.getD "" ≠ "M13") →
      ((parseInt? (strTail (it.period.getD ""))).isSome = true ∧
        ((parseFloat? it.value).isSome = true →
          (parseInt? (it.year.getD "")).isSome = true))) :
    ∃ r?, normItem sn sid it = Except.ok r? := by
  by_cases hc : (!startsWithM (it.period.getD "") || (it.period.getD "" == "M13")) = true
  · exact ⟨none, by simp only [normItem, hc, if_true]⟩
  · have hc' : (!startsWithM (it.period.getD "") || (it.period.getD "" == "M13")) = false :=
      Bool.eq_false_iff.mpr hc
    have h1 : startsWithM (it.period.getD "") = true := by
      have := Bool.or_eq_false_iff.mp hc'
      simpa using this.1
    have h2 : it.period.getD "" ≠ "M13" := by
      have := Bool.or_eq_false_iff.mp hc'
      simpa using this.2
    obtain ⟨hm, hy⟩ := hcond ⟨h1, h2⟩
    obtain ⟨m, hm'⟩ := Option.isSome_iff_exists.mp hm
    cases hf : parseFloat? it.value with
    | none =>
      exact ⟨none, by simp only [normItem, hc', Bool.false_eq_true, if_false, hm', hf]⟩
    | some v =>
      have hys : (parseInt? (it.year.getD "")).isSome = true := hy (by simp [hf])
      obtain ⟨y, hy'⟩ := Option.isSome_iff_exists.mp hys
      exact ⟨some ⟨sn, sid, y, m, v, it.period.getD "", it.periodName.getD ""⟩,
        by simp only [normItem, hc', Bool.false_eq_true, if_false, hm', hf, hy']⟩

/-- C8 amended: `normalize_records` succeeds exactly when every retained
monthly item (period starting with "M", other than "M13") has an
integer-parseable period suffix and, whenever its value parses, an
integer-parseable year.  Items with unparseable values (or skipped
periods) are dropped silently and never cause a failure; an unparseable
year or a malformed "M…" suffix on a retained item raises out of
`normalize_records` instead of being dropped. -/
theorem normalize_records_ok_iff (sn sid : String) (raw : List RawItem) :
    (∃ out, normalize_records sn sid raw = Except.ok out) ↔
    ∀ it ∈ raw, (startsWithM (it.period.getD "") = true ∧ it.period.getD "" ≠ "M13") →
      ((parseInt? (strTail (it.period.getD ""))).isSome = true ∧
        ((parseFloat? it.value).isSome = true →
          (parseInt? (it.year.getD "")).isSome = true)) := by
  induction raw with
  | nil =>
    constructor
    · intro _ it hit
      cases hit
    · intro _
      exact ⟨[], rfl⟩
  | cons it rest ih =>
    constructor
    · rintro ⟨out, hout⟩ x hx
      simp only [normalize_records] at hout
      cases hni : normItem sn sid it with
      | error e => rw [hni] at hout; cases hout
      | ok r? =>
        rw [hni] at hout
        cases hrec : normalize_records sn sid rest with
        | error e => rw [hrec] at hout; cases hout
        | ok rs =>
          rcases List.mem_cons.mp hx with rfl | hx'
          · exact normItem_ok_cond hni
          · exact ih.mp ⟨rs, hrec⟩ x hx'
    · intro hall
      obtain ⟨rs, hrs⟩ := ih.mpr (fun x hx => hall x (List.mem_cons_of_mem _ hx))
      obtain ⟨r?, hr⟩ := normItem_ok_of_cond sn sid (hall it (List.mem_cons_self it rest))
      cases r? with
      | some r => exact ⟨r :: rs, by simp only [normalize_records, hr, hrs]⟩
      | none => exact ⟨rs, by simp only [normalize_records, hr, hrs]⟩

/-- Witness for the amended C8: an item whose value does not parse (and
whose year would not parse either) is dropped silently and normalization
still succeeds. -/
theorem normalize_records_ok_iff_witness :
    (∀ it ∈ [(⟨some "M02", some "", some "abc", none⟩ : RawItem)],
      (startsWithM (it.period.getD "") = true ∧ it.period.getD "" ≠ "M13") →
      ((parseInt? (strTail (it.period.getD ""))).isSome = true ∧
        ((parseFloat? it.value).isSome = true →
          (parseInt? (it.year.getD "")).isSome = true))) ∧
    ∃ out, normalize_records "A" "S1" [⟨some "M02", some "", some "abc", none⟩] =
      Except.ok out :=
  ⟨by decide, (normalize_records_ok_iff "A" "S1" _).mpr (by decide)⟩

/-- Counterexample to C8 as stated: an item with a kept monthly period and
a parseable value but a missing/unparseable year makes `normalize_records`
raise (`int(year)` is outside the `try`), instead of being dropped
silently. -/
theorem normalize_records_raises_on_bad_year :
    normalize_records "A" "S1" [⟨some "M01", some "", some "3.5", none⟩] =
      Except.error "ValueError: invalid literal for int() with base 10" := rfl

theorem normItem_some_props {sn sid : String} {it : RawItem} {r0 : RawRec}
    (h : normItem sn sid it = Except.ok (some r0)) :
    startsWithM r0.period = true ∧ r0.period ≠ "M13" ∧
      parseInt? (strTail r0.period) = some r0.month := by
  simp only [normItem] at h
  by_cases hc : (!startsWithM (it.period.getD "") || (it.period.getD "" == "M13")) = true
  · rw [if_pos hc] at h
    cases h
  · have hc' : (!startsWithM (it.period.getD "") || (it.period.getD "" == "M13")) = false :=
      Bool.eq_false_iff.mpr hc
    rw [hc'] at h
    simp only [Bool.false_eq_true, if_false] at h
    have h1 : startsWithM (it.period.getD "") = true := by
      have := Bool.or_eq_false_iff.mp hc'
      simpa using this.1
    have h2 : it.period.getD "" ≠ "M13" := by
      have := Bool.or_eq_false_iff.mp hc'
      simpa using this.2
    cases hpi : parseInt? (strTail (it.period.getD "")) with
    | none => rw [hpi] at h; cases h
    | some m =>
      rw [hpi] at h
      cases hf : parseFloat? it.value with
      | none => rw [hf] at h; cases h
      | some v =>
        rw [hf] at h
        cases hpy : parseInt? (it.year.getD "") with
        | none => rw [hpy] at h; cases h
        | some y =>
          rw [hpy] at h
          have := Except.ok.inj h
          have hr0 : r0 = ⟨sn, sid, y, m, v, it.period.getD "", it.periodName.getD ""⟩ :=
            (Option.some.inj this).symm
          subst hr0
          exact ⟨h1, h2, hpi⟩

/-- C9 amended: every record surviving `normalize_records` has a period
starting with "M", different from "M13", with an integer-parseable suffix
equal to its recorded month — but that month is not necessarily in 1–12
(codes like "M14" survive normalization and are only dropped later, when
their date string fails to parse at merge time). -/
theorem normalize_records_output_periods (sn sid : String) (raw : List RawItem)
    (out : List RawRec) (h : normalize_records sn sid raw = Except.ok out) :
    ∀ r ∈ out, startsWithM r.period = true ∧ r.period ≠ "M13" ∧
      parseInt? (strTail r.period) = some r.month := by
  induction raw generalizing out with
  | nil =>
    have : out = [] := (Except.ok.inj h).symm
    subst this
    intro r hr
    cases hr
  | cons it rest ih =>
    simp only [normalize_records] at h
    cases hni : normItem sn sid it with
    | error e => rw [hni] at h; cases h
    | ok r? =>
      rw [hni] at h
      cases hrec : normalize_records sn sid rest with
      | error e => rw [hrec] at h; cases h
      | ok rs =>
        rw [hrec] at h
        cases r? with
        | none =>
          have hout : out = rs := (Except.ok.inj h).symm
          subst hout
          exact ih _ hrec
        | some r0 =>
          have : out = r0 :: rs := (Except.ok.inj h).symm
          subst this
          intro r hr
          rcases List.mem_cons.mp hr with rfl | hr'
          · exact normItem_some_props hni
          · exact ih _ hrec r hr'

/-- Witness for the amended C9 at a concrete run. -/
theorem normalize_records_output_periods_witness :
    normalize_records "A" "S1" [⟨some "M05", some "2020", some "7", none⟩] =
      Except.ok [⟨"A", "S1", 2020, 5, 7, "M05", ""⟩] ∧
    ∀ r ∈ [(⟨"A", "S1", 2020, 5, 7, "M05", ""⟩ : RawRec)],
      startsWithM r.period = true ∧ r.period ≠ "M13" ∧
        parseInt? (strTail r.period) = some r.month := by
  have h : normalize_records "A" "S1" [⟨some "M05", some "2020", some "7", none⟩] =
      Except.ok [⟨"A", "S1", 2020, 5, 7, "M05", ""⟩] := by rfl
  exact ⟨h, normalize_records_output_periods "A" "S1" _ _ h⟩

/-- Counterexample to C9 as stated: the period filter only rejects codes
not starting with "M" and the exact string "M13", so the non-calendar
code "M14" passes normalization (month 14 is outside 1–12). -/
theorem normalize_keeps_M14 :
    (normalize_records "A" "S1" [⟨some "M14", some "2020", some "7.0", none⟩]).map
      (fun l => l.map (fun r => (r.month, r.period))) = Except.ok [((14 : Int), "M14")] ∧
    ¬ ((14 : Int) ≤ 12) := ⟨rfl, by decide⟩

theorem find?_eq_head?_filter (p : ObsRec → Bool) (l : List ObsRec) :
    l.find? p = (l.filter p).head? := by
  induction l with
  | nil => rfl
  | cons a t ih =>
    rw [List.find?_cons, List.filter_cons]
    cases hp : p a with
    | true => simp
    | false => simp only [Bool.false_eq_true, if_false]; exact ih

theorem dedupAux_mem {l : List ObsRec} {seen : List (String × Int)} {x : ObsRec}
    (hx : x ∈ dedupKeepFirstAux l seen) :
    x ∈ l ∧ obsKey x ∉ seen ∧ l.find? (fun y => obsKey y == obsKey x) = some x := by
  induction l generalizing seen with
  | nil => cases hx
  | cons r rs ih =>
    rw [dedupKeepFirstAux] at hx
    by_cases hmem : obsKey r ∈ seen
    · rw [if_pos hmem] at hx
      obtain ⟨h1, h2, h3⟩ := ih hx
      refine ⟨List.mem_cons_of_mem _ h1, h2, ?_⟩
      rw [List.find?_cons]
      have hne : (obsKey r == obsKey x) = false := by
        apply beq_eq_false_iff_ne.mpr
        intro he
        exact h2 (he ▸ hmem)
      rw [hne]
      exact h3
    · rw [if_neg hmem] at hx
      rcases List.mem_cons.mp hx with rfl | hx'
      · refine ⟨List.mem_cons_self _ _, hmem, ?_⟩
        rw [List.find?_cons]
        have : (obsKey x == obsKey x) = true := beq_self_eq_true _
        rw [this]
      · obtain ⟨h1, h2, h3⟩ := ih hx'
        have h2' : obsKey x ∉ seen := fun hc => h2 (List.mem_cons_of_mem _ hc)
        have hne : obsKey x ≠ obsKey r := fun hc => h2 (hc ▸ List.mem_cons_self _ _)
        refine ⟨List.mem_cons_of_mem _ h1, h2', ?_⟩
        rw [List.find?_cons]
        have : (obsKey r == obsKey x) = false := beq_eq_false_iff_ne.mpr (Ne.symm hne)
        rw [this]
        exact h3

theorem dedupAux_covers {l : List ObsRec} {seen : List (String × Int)} {x : ObsRec}
    (hx : x ∈ l) (hs : obsKey x ∉ seen) :
    ∃ y ∈ dedupKeepFirstAux l seen, obsKey y = obsKey x := by
  induction l generalizing seen with
  | nil => cases hx
  | cons r rs ih =>
    rw [dedupKeepFirstAux]
    by_cases hmem : obsKey r ∈ seen
    · rw [if_pos hmem]
      rcases List.mem_cons.mp hx with rfl | hx'
      · exact absurd hmem (by exact hs)
      · exact ih hx' hs
    · rw [if_neg hmem]
      by_cases hk : obsKey x = obsKey r
      · exact ⟨r, List.mem_cons_self _ _, hk.symm⟩
      · rcases List.mem_cons.mp hx with rfl | hx'
        · exact absurd rfl hk
        · have hs' : obsKey x ∉ obsKey r :: seen := by
            intro hc
            rcases List.mem_cons.mp hc with hc' | hc'
            · exact hk hc'
            · exact hs hc'
          obtain ⟨y, hy1, hy2⟩ := ih hx' hs'
          exact ⟨y, List.mem_cons_of_mem _ hy1, hy2⟩

theorem dedupAux_keys_pairwise (l : List ObsRec) (seen : List (String × Int)) :
    List.Pairwise (fun a b => obsKey a ≠ obsKey b) (dedupKeepFirstAux l seen) := by
  induction l generalizing seen with
  | nil => exact List.Pairwise.nil
  | cons r rs ih =>
    rw [dedupKeepFirstAux]
    by_cases hmem : obsKey r ∈ seen
    · rw [if_pos hmem]
      exact ih seen
    · rw [if_neg hmem]
      refine List.Pairwise.cons ?_ (ih _)
      intro y hy
      have := (dedupAux_mem hy).2.1
      intro hc
      exact this (hc ▸ List.mem_cons_self _ _)

theorem mem_dropDupKeepLast_getLast {l : List ObsRec} {x : ObsRec}
    (hx : x ∈ dropDupKeepLast l) :
    x ∈ l ∧ (l.filter (fun y => obsKey y == obsKey x)).getLast? = some x := by
  rw [dropDupKeepLast, List.mem_reverse] at hx
  obtain ⟨h1, _, h3⟩ := dedupAux_mem hx
  refine ⟨List.mem_reverse.mp h1, ?_⟩
  rw [find?_eq_head?_filter, List.filter_reverse] at h3
  rw [← List.head?_reverse]
  exact h3

theorem dropDupKeepLast_covers {l : List ObsRec} {x : ObsRec} (hx : x ∈ l) :
    ∃ y ∈ dropDupKeepLast l, obsKey y = obsKey x := by
  obtain ⟨y, hy1, hy2⟩ :=
    dedupAux_covers (List.mem_reverse.mpr hx) (List.not_mem_nil (obsKey x))
  exact ⟨y, by rw [dropDupKeepLast, List.mem_reverse]; exact hy1, hy2⟩

theorem dropDupKeepLast_keys_pairwise (l : List ObsRec) :
    List.Pairwise (fun a b => obsKey a ≠ obsKey b) (dropDupKeepLast l) := by
  rw [dropDupKeepLast, List.pairwise_reverse]
  exact (dedupAux_keys_pairwise l.reverse []).imp (fun h => h.symm)

theorem dedupStage_keys_pairwise (old incoming : List ObsRec) :
    List.Pairwise (fun a b => obsKey a ≠ obsKey b) (dedupStage old incoming) :=
  (List.Perm.pairwise_iff (fun h => h.symm)
    (sortRows_perm (dropDupKeepLast (old ++ incoming)))).mpr
    (dropDupKeepLast_keys_pairwise (old ++ incoming))

theorem dedupStage_last_wins {old incoming : List ObsRec} {r : ObsRec}
    (hr : r ∈ dedupStage old incoming) :
    r ∈ old ++ incoming ∧
      ((old ++ incoming).filter (fun y => obsKey y == obsKey r)).getLast? = some r :=
  mem_dropDupKeepLast_getLast (mem_sortRows.mp hr)

theorem dedupStage_covers {old incoming : List ObsRec} {x : ObsRec}
    (hx : x ∈ old ++ incoming) :
    ∃ y ∈ dedupStage old incoming, obsKey y = obsKey x := by
  obtain ⟨y, hy1, hy2⟩ := dropDupKeepLast_covers hx
  exact ⟨y, mem_sortRows.mpr hy1, hy2⟩

theorem retain24_group_sid {l : List ObsRec} {sid : String} {x : ObsRec}
    (hx : x ∈ tail24 (List.insertionSort dateLE (l.filter (fun r => r.series_id == sid)))) :
    x.series_id = sid := by
  have h1 : x ∈ List.insertionSort dateLE (l.filter (fun r => r.series_id == sid)) :=
    List.mem_of_mem_drop hx
  have h2 : x ∈ l.filter (fun r => r.series_id == sid) :=
    (List.perm_insertionSort dateLE _).mem_iff.mp h1
  exact eq_of_beq (List.mem_filter.mp h2).2

theorem retain24_subset {l : List ObsRec} {x : ObsRec} (hx : x ∈ retain24 l) : x ∈ l := by
  obtain ⟨sid, _, hx'⟩ := List.mem_flatMap.mp hx
  have h1 : x ∈ List.insertionSort dateLE (l.filter (fun r => r.series_id == sid)) :=
    List.mem_of_mem_drop hx'
  have h2 : x ∈ l.filter (fun r => r.series_id == sid) :=
    (List.perm_insertionSort dateLE _).mem_iff.mp h1
  exact (List.mem_filter.mp h2).1

theorem retain24_keys_pairwise {l : List ObsRec}
    (h : List.Pairwise (fun a b => obsKey a ≠ obsKey b) l) :
    List.Pairwise (fun a b => obsKey a ≠ obsKey b) (retain24 l) := by
  rw [retain24]
  rw [show ((sidList l).flatMap fun sid =>
      tail24 (List.insertionSort dateLE (List.filter (fun r => r.series_id == sid) l))) =
    ((sidList l).map fun sid =>
      tail24 (List.insertionSort dateLE (List.filter (fun r => r.series_id == sid) l))).flatten
    from rfl]
  rw [List.pairwise_flatten]
  constructor
  · intro g hg
    obtain ⟨sid, _, rfl⟩ := List.mem_map.mp hg
    have h1 : List.Pairwise (fun a b => obsKey a ≠ obsKey b)
        (l.filter (fun r => r.series_id == sid)) :=
      h.sublist (List.filter_sublist l)
    have h2 : List.Pairwise (fun a b => obsKey a ≠ obsKey b)
        (List.insertionSort dateLE (l.filter (fun r => r.series_id == sid))) :=
      (List.Perm.pairwise_iff (fun hc => hc.symm) (List.perm_insertionSort dateLE _)).mpr h1
    exact h2.sublist (List.drop_sublist _ _)
  · have hnd : List.Pairwise (fun s t : String => s ≠ t) (sidList l) := List.nodup_dedup _
    rw [List.pairwise_map]
    refine hnd.imp ?_
    intro s t hst x hx y hy hc
    apply hst
    have hxs : x.series_id = s := retain24_group_sid hx
    have hyt : y.series_id = t := retain24_group_sid hy
    have := congrArg Prod.fst hc
    simpa [obsKey, hxs, hyt] using this

/-- C3: after concatenating the existing table with the incoming rows and
dropping duplicate `(series_id, date)` keys keep-last, keys are pairwise
distinct, each surviving record is the last-arriving record of its key,
and every input key is still represented; the two dedup facts persist in
the final merged (retained) table. -/
theorem merge_dedup_keep_last (old incoming : List ObsRec) :
    List.Pairwise (fun a b => obsKey a ≠ obsKey b) (dedupStage old incoming) ∧
    (∀ r ∈ dedupStage old incoming,
      ((old ++ incoming).filter (fun y => obsKey y == obsKey r)).getLast? = some r) ∧
    (∀ x ∈ old ++ incoming, ∃ y ∈ dedupStage old incoming, obsKey y = obsKey x) ∧
    List.Pairwise (fun a b => obsKey a ≠ obsKey b) (merged_table old incoming) ∧
    (∀ r ∈ merged_table old incoming,
      ((old ++ incoming).filter (fun y => obsKey y == obsKey r)).getLast? = some r) :=
  ⟨dedupStage_keys_pairwise old incoming,
    fun _ hr => (dedupStage_last_wins hr).2,
    fun _ hx => dedupStage_covers hx,
    retain24_keys_pairwise (dedupStage_keys_pairwise old incoming),
    fun _ hr => (dedupStage_last_wins (retain24_subset hr)).2⟩

/-- Witness for C3: run 2 revises the already-stored month 0; the merged
table keeps exactly the revised record for that month. -/
theorem merge_dedup_keep_last_witness :
    dedupStage [exR "A" 0 100] [exR "A" 0 110, exR "A" 1 105] =
      [exR "A" 0 110, exR "A" 1 105] ∧
    (exR "A" 0 110 ∈ dedupStage [exR "A" 0 100] [exR "A" 0 110, exR "A" 1 105]) ∧
    (([exR "A" 0 100] ++ [exR "A" 0 110, exR "A" 1 105]).filter
      (fun y => obsKey y == obsKey (exR "A" 0 110))).getLast? = some (exR "A" 0 110) :=
  ⟨by decide, by decide,
    (merge_dedup_keep_last [exR "A" 0 100] [exR "A" 0 110, exR "A" 1 105]).2.1
      (exR "A" 0 110) (by decide)⟩

theorem flatMap_filter_single {sids : List String} {f : String → List ObsRec} {sid : String}
    (hnd : sids.Nodup) (hmem : sid ∈ sids)
    (hf : ∀ s, ∀ x ∈ f s, x.series_id = s) :
    sids.flatMap (fun s => (f s).filter (fun r => r.series_id == sid)) = f sid := by
  induction sids with
  | nil => cases hmem
  | cons s ss ih =>
    rw [List.flatMap_cons]
    rcases List.mem_cons.mp hmem with rfl | hmem'
    · have h1 : (f sid).filter (fun r => r.series_id == sid) = f sid :=
        List.filter_eq_self.mpr (fun x hx => by simp [hf sid x hx])
      have h2 : ss.flatMap (fun t => (f t).filter (fun r => r.series_id == sid)) = [] := by
        rw [List.flatMap_eq_nil_iff]
        intro t ht
        rw [List.filter_eq_nil_iff]
        intro x hx
        have hxt : x.series_id = t := hf t x hx
        have hts : t ≠ sid := fun hc => (List.nodup_cons.mp hnd).1 (hc ▸ ht)
        simp [hxt, hts]
      rw [h1, h2, List.append_nil]
    · have hss : s ≠ sid := fun hc => (List.nodup_cons.mp hnd).1 (hc ▸ hmem')
      have h1 : (f s).filter (fun r => r.series_id == sid) = [] := by
        rw [List.filter_eq_nil_iff]
        intro x hx
        have hxs : x.series_id = s := hf s x hx
        simp [hxs, hss]
      rw [h1, List.nil_append]
      exact ih (List.nodup_cons.mp hnd).2 hmem'

theorem retain24_filter_eq (l : List ObsRec) (sid : String) :
    (retain24 l).filter (fun r => r.series_id == sid) =
      tail24 (List.insertionSort dateLE (l.filter (fun r => r.series_id == sid))) := by
  rw [retain24, List.filter_flatMap]
  by_cases hs : sid ∈ sidList l
  · exact flatMap_filter_single (List.nodup_dedup _) hs
      (fun s x hx => retain24_group_sid hx)
  · have hnol : ∀ x ∈ l, x.series_id ≠ sid := by
      intro x hx hc
      exact hs (List.mem_dedup.mpr (hc ▸ List.mem_map_of_mem _ hx))
    have hfl : l.filter (fun r => r.series_id == sid) = [] := by
      rw [List.filter_eq_nil_iff]
      intro x hx
      simp [hnol x hx]
    rw [hfl]
    rw [show List.insertionSort dateLE ([] : List ObsRec) = [] from rfl]
    rw [show tail24 [] = [] from rfl]
    rw [List.flatMap_eq_nil_iff]
    intro s hsl
    rw [List.filter_eq_nil_iff]
    intro x hx
    have hxs : x.series_id = s := retain24_group_sid hx
    have hssid : s ≠ sid := fun hc => hs (hc ▸ hsl)
    simp [hxs, hssid]

theorem dedupStage_group_strict (old incoming : List ObsRec) (sid : String) :
    List.Pairwise (fun a b : ObsRec => a.date < b.date)
      ((dedupStage old incoming).filter (fun r => r.series_id == sid)) := by
  have hle : List.Pairwise keyLE ((dedupStage old incoming).filter
      (fun r => r.series_id == sid)) :=
    (sortRows_sorted _).sublist (List.filter_sublist _)
  have hne : List.Pairwise (fun a b => obsKey a ≠ obsKey b)
      ((dedupStage old incoming).filter (fun r => r.series_id == sid)) :=
    (dedupStage_keys_pairwise old incoming).sublist (List.filter_sublist _)
  refine List.Pairwise.imp_of_mem ?_ (hle.and hne)
  rintro a b ha hb ⟨hab, hk⟩
  have hsa : a.series_id = sid := eq_of_beq (List.mem_filter.mp ha).2
  have hsb : b.series_id = sid := eq_of_beq (List.mem_filter.mp hb).2
  rcases hab with h | ⟨hs, hd⟩
  · rw [hsa, hsb] at h
    simp [strLt_irrefl] at h
  · refine lt_of_le_of_ne hd ?_
    intro hdd
    exact hk (by simp [obsKey, hs, hdd])

theorem mem_drop_sorted_iff (k : Nat) :
    ∀ g : List ObsRec, List.Pairwise (fun a b : ObsRec => a.date < b.date) g →
      ∀ r ∈ g, (r ∈ g.drop (g.length - k) ↔
        (g.filter (fun x => decide (r.date < x.date))).length < k) := by
  intro g
  induction g with
  | nil =>
    intro _ r hr
    cases hr
  | cons a t ih =>
    intro hpw r hr
    have hpa : ∀ x ∈ t, a.date < x.date := fun x hx => List.rel_of_pairwise_cons hpw hx
    have hpt := hpw.of_cons
    rcases List.mem_cons.mp hr with rfl | hrt
    · have hfil : (r :: t).filter (fun x => decide (r.date < x.date)) = t := by
        rw [List.filter_cons]
        simp only [decide_eq_true_eq, lt_irrefl, if_false]
        exact List.filter_eq_self.mpr (fun x hx => by simp [hpa x hx])
      rw [hfil]
      have hnotin : r ∉ t := fun hc => absurd (hpa r hc) (lt_irrefl _)
      constructor
      · intro hdrop
        by_contra hk
        push_neg at hk
        have hj : (r :: t).length - k = (t.length - k) + 1 := by
          simp only [List.length_cons]
          omega
        rw [hj, List.drop_succ_cons] at hdrop
        exact hnotin (List.mem_of_mem_drop hdrop)
      · intro hk
        have hj : (r :: t).length - k = 0 := by
          simp only [List.length_cons]
          omega
        rw [hj, List.drop_zero]
        exact List.mem_cons_self _ _
    · have hfil : (a :: t).filter (fun x => decide (r.date < x.date)) =
          t.filter (fun x => decide (r.date < x.date)) := by
        rw [List.filter_cons]
        have hna : ¬ (r.date < a.date) := not_lt.mpr (le_of_lt (hpa r hrt))
        simp [hna]
      rw [hfil]
      by_cases hk : t.length + 1 ≤ k
      · have h0 : (a :: t).length - k = 0 := by
          simp only [List.length_cons]
          omega
        rw [h0, List.drop_zero]
        constructor
        · intro _
          exact lt_of_le_of_lt (List.length_filter_le _ _) (by omega)
        · intro _
          exact hr
      · have hj : (a :: t).length - k = (t.length - k) + 1 := by
          simp only [List.length_cons]
          omega
        rw [hj, List.drop_succ_cons]
        exact ih hpt r hrt

/-- C4: after the merge, each series keeps at most 24 records, every kept
record comes from the deduplicated table, and a deduplicated record of the
series survives retention exactly when fewer than 24 records of the same
series have a strictly later date (i.e. the kept records are the 24
chronologically latest; all of them when there are 24 or fewer). -/
theorem merge_retention_keeps_latest_24 (old incoming : List ObsRec) (sid : String) :
    ((merged_table old incoming).filter (fun r => r.series_id == sid)).length ≤ 24 ∧
    (∀ r ∈ (merged_table old incoming).filter (fun r => r.series_id == sid),
      r ∈ (dedupStage old incoming).filter (fun r => r.series_id == sid)) ∧
    ∀ r ∈ (dedupStage old incoming).filter (fun r => r.series_id == sid),
      (r ∈ (merged_table old incoming).filter (fun r => r.series_id == sid) ↔
        (((dedupStage old incoming).filter (fun r => r.series_id == sid)).filter
          (fun x => decide (r.date < x.date))).length < 24) := by
  have hstrict := dedupStage_group_strict old incoming sid
  have hsorted : List.Sorted dateLE
      ((dedupStage old incoming).filter (fun r => r.series_id == sid)) :=
    hstrict.imp (fun h => le_of_lt h)
  have hmg : (merged_table old incoming).filter (fun r => r.series_id == sid) =
      tail24 ((dedupStage old incoming).filter (fun r => r.series_id == sid)) := by
    rw [merged_table, retain24_filter_eq, hsorted.insertionSort_eq]
  refine ⟨?_, ?_, ?_⟩
  · rw [hmg, tail24, List.length_drop]
    omega
  · intro r hr
    rw [hmg] at hr
    exact List.mem_of_mem_drop hr
  · intro r hr
    rw [hmg, tail24]
    exact mem_drop_sorted_iff 24 _ hstrict r hr

/-- Witness for C4: merging 26 consecutive months of one series keeps
exactly 24 records, dropping the two oldest months. -/
theorem merge_retention_keeps_latest_24_witness :
    ((merged_table [] manyRows).filter (fun r => r.series_id == "A")).length ≤ 24 ∧
    (merged_table [] manyRows).length = 24 ∧
    (exR "A" 1 1 ∉ merged_table [] manyRows) ∧
    (exR "A" 25 1 ∈ merged_table [] manyRows) ∧
    ((exR "A" 1 1 ∈ (merged_table [] manyRows).filter (fun r => r.series_id == "A")) ↔
      (((dedupStage [] manyRows).filter (fun r => r.series_id == "A")).filter
        (fun x => decide ((exR "A" 1 1).date < x.date))).length < 24) :=
  ⟨(merge_retention_keeps_latest_24 [] manyRows "A").1, by decide, by decide, by decide,
    (merge_retention_keeps_latest_24 [] manyRows "A").2.2 (exR "A" 1 1) (by decide)⟩

theorem mem_zip_idx {α β : Type _} {l₁ : List α} {l₂ : List β} {x : α} {y : β}
    (h : (x, y) ∈ l₁.zip l₂) : ∃ i : Nat, l₁[i]? = some x ∧ l₂[i]? = some y := by
  induction l₁ generalizing l₂ with
  | nil => simp at h
  | cons a t ih =>
    cases l₂ with
    | nil => simp at h
    | cons b u =>
      rw [List.zip_cons_cons] at h
      rcases List.mem_cons.mp h with he | h'
      · have h1 : x = a := congrArg Prod.fst he
        have h2 : y = b := congrArg Prod.snd he
        subst h1
        subst h2
        exact ⟨0, List.getElem?_cons_zero, List.getElem?_cons_zero⟩
      · obtain ⟨i, h1, h2⟩ := ih h'
        exact ⟨i + 1, by rw [List.getElem?_cons_succ]; exact h1,
          by rw [List.getElem?_cons_succ]; exact h2⟩

theorem contig_date_at :
    ∀ g : List ObsRec, contigChain g = true → ∀ h0, g.head? = some h0 →
      ∀ (i : Nat) (r : ObsRec), g[i]? = some r → r.date = h0.date + (i : Int) := by
  intro g
  induction g with
  | nil =>
    intro _ h0 hh
    cases hh
  | cons a t ih =>
    intro hc h0 hh i r hi
    have ha : a = h0 := Option.some.inj hh
    subst ha
    cases i with
    | zero =>
      rw [List.getElem?_cons_zero] at hi
      have : a = r := Option.some.inj hi
      subst this
      simp
    | succ n =>
      rw [List.getElem?_cons_succ] at hi
      cases t with
      | nil => cases hi
      | cons b u =>
        simp only [contigChain, Bool.and_eq_true, beq_iff_eq] at hc
        obtain ⟨hb, hrest⟩ := hc
        have hr := ih hrest b rfl n r hi
        rw [hr, hb]
        push_cast
        ring

theorem contig_pairwise_lt {g : List ObsRec} (hc : contigChain g = true) :
    List.Pairwise (fun a b : ObsRec => a.date < b.date) g := by
  cases g with
  | nil => exact List.Pairwise.nil
  | cons a t =>
    rw [List.pairwise_iff_getElem]
    intro i j hi hj hij
    have h1 := contig_date_at (a :: t) hc a rfl i _ (List.getElem?_eq_getElem hi)
    have h2 := contig_date_at (a :: t) hc a rfl j _ (List.getElem?_eq_getElem hj)
    rw [h1, h2]
    omega

theorem strict_date_unique {g : List ObsRec}
    (hp : List.Pairwise (fun a b : ObsRec => a.date < b.date) g) {r1 r2 : ObsRec}
    (h1 : r1 ∈ g) (h2 : r2 ∈ g) (hd : r1.date = r2.date) : r1 = r2 := by
  obtain ⟨i, hi, hgi⟩ := List.mem_iff_getElem.mp h1
  obtain ⟨j, hj, hgj⟩ := List.mem_iff_getElem.mp h2
  rcases lt_trichotomy i j with hij | hij | hij
  · have := List.pairwise_iff_getElem.mp hp i j hi hj hij
    rw [hgi, hgj] at this
    omega
  · subst hij
    rw [← hgi]
    exact hgj
  · have := List.pairwise_iff_getElem.mp hp j i hj hi hij
    rw [hgi, hgj] at this
    omega

theorem yoyList_getElem (vs : List ℚ) (i : Nat) (hi : i < vs.length) :
    (yoyList vs)[i]? =
      some (if 12 ≤ i then some ((vs.getD i 0 / vs.getD (i - 12) 0 - 1) * 100)
        else none) := by
  rw [yoyList, List.getElem?_map, List.getElem?_range hi]
  rfl

theorem mem_of_mem_applyLast12 {t : List (ObsRec × Option ℚ)} {p : ObsRec × Option ℚ}
    (hp : p ∈ applyLast12 t) : p ∈ t := by
  simp only [applyLast12] at hp
  cases hmax : (t.map (fun q => q.1.date)).max? with
  | none => rw [hmax] at hp; cases hp
  | some m => rw [hmax] at hp; exact (List.mem_filter.mp hp).1

/-- C1 amended: on a table whose per-series histories are gapless
(consecutive calendar months), the `pct_change(12)` column coincides with
the spec's formula — `(value[i] / value[i-12] - 1) * 100` when a record
exactly 12 calendar months earlier exists in the same series, null
otherwise — and, because the column is computed on the full table before
windowing, every record still visible after the "Last 12 months" filter
carries exactly its full-table value.  (On series with month gaps the
positional lookback of `pct_change(12)` and the calendar lookback
differ.) -/
theorem yoy_full_then_window (rows : List ObsRec) (hcont : Contiguous rows) :
    (∀ p ∈ withYoy rows, p.2 = specYoyCalendar rows p.1) ∧
    (∀ p ∈ applyLast12 (withYoy rows), p.2 = specYoyCalendar rows p.1) := by
  have hmain : ∀ p ∈ withYoy rows, p.2 = specYoyCalendar rows p.1 := by
    rintro ⟨r, y⟩ hp
    obtain ⟨sid, hsid, hzip⟩ := List.mem_flatMap.mp hp
    obtain ⟨i, hgi, hyi⟩ := mem_zip_idx hzip
    have hsid' : sid ∈ rows.map (fun r => r.series_id) := by
      have h1 : sid ∈ (sortRows rows).map (fun r => r.series_id) := List.mem_dedup.mp hsid
      obtain ⟨r', hr', he⟩ := List.mem_map.mp h1
      exact List.mem_map.mpr ⟨r', mem_sortRows.mp hr', he⟩
    have hcg : contigChain (seriesGroup rows sid) = true := hcont sid hsid'
    have hstr := contig_pairwise_lt hcg
    obtain ⟨hi_lt, hgi'⟩ := List.getElem?_eq_some_iff.mp hgi
    have hr_in_g : r ∈ seriesGroup rows sid := by
      rw [← hgi']
      exact List.getElem_mem hi_lt
    have hr_rows : r ∈ rows := (mem_seriesGroup.mp hr_in_g).1
    have hr_sid : r.series_id = sid := (mem_seriesGroup.mp hr_in_g).2
    cases hg : (seriesGroup rows sid).head? with
    | none =>
      rw [List.head?_eq_none_iff] at hg
      rw [hg] at hr_in_g
      cases hr_in_g
    | some h0 =>
      have hrdate : r.date = h0.date + (i : Int) := contig_date_at _ hcg h0 hg i r hgi
      have hlenmap : ((seriesGroup rows sid).map (fun r => r.value)).length =
          (seriesGroup rows sid).length := List.length_map _ _
      have hyival := yoyList_getElem ((seriesGroup rows sid).map (fun r => r.value)) i
        (by rw [hlenmap]; exact hi_lt)
      rw [hyival] at hyi
      have hy : y = if 12 ≤ i then
          some ((((seriesGroup rows sid).map (fun r => r.value)).getD i 0 /
            ((seriesGroup rows sid).map (fun r => r.value)).getD (i - 12) 0 - 1) * 100)
        else none := (Option.some.inj hyi).symm
      have hv1 : ((seriesGroup rows sid).map (fun r => r.value)).getD i 0 = r.value := by
        rw [List.getD_eq_getElem?_getD, List.getElem?_map, hgi]
        rfl
      by_cases h12 : 12 ≤ i
      · rw [if_pos h12] at hy
        have hj_lt : i - 12 < (seriesGroup rows sid).length :=
          lt_of_le_of_lt (Nat.sub_le i 12) hi_lt
        have hgj : (seriesGroup rows sid)[i - 12]? =
            some ((seriesGroup rows sid).get ⟨i - 12, hj_lt⟩) :=
          List.getElem?_eq_getElem hj_lt
        have hr2_in_g : (seriesGroup rows sid).get ⟨i - 12, hj_lt⟩ ∈ seriesGroup rows sid :=
          List.getElem_mem hj_lt
        have hr2_rows : (seriesGroup rows sid).get ⟨i - 12, hj_lt⟩ ∈ rows :=
          (mem_seriesGroup.mp hr2_in_g).1
        have hr2_sid : ((seriesGroup rows sid).get ⟨i - 12, hj_lt⟩).series_id = sid :=
          (mem_seriesGroup.mp hr2_in_g).2
        have hr2date : ((seriesGroup rows sid).get ⟨i - 12, hj_lt⟩).date =
            h0.date + ((i - 12 : Nat) : Int) := contig_date_at _ hcg h0 hg _ _ hgj
        have hr2dr : ((seriesGroup rows sid).get ⟨i - 12, hj_lt⟩).date = r.date - 12 := by
          rw [hrdate, hr2date]
          omega
        have hv2 : ((seriesGroup rows sid).map (fun r => r.value)).getD (i - 12) 0 =
            ((seriesGroup rows sid).get ⟨i - 12, hj_lt⟩).value := by
          rw [List.getD_eq_getElem?_getD, List.getElem?_map, hgj]
          rfl
        have hfind : rows.find? (fun x => x.series_id == r.series_id &&
            x.date == r.date - 12) = some ((seriesGroup rows sid).get ⟨i - 12, hj_lt⟩) := by
          cases hf : rows.find? (fun x => x.series_id == r.series_id &&
              x.date == r.date - 12) with
          | none =>
            rw [List.find?_eq_none] at hf
            refine absurd ?_ (hf _ hr2_rows)
            simp only [Bool.and_eq_true, beq_iff_eq]
            exact ⟨hr2_sid.trans hr_sid.symm, hr2dr⟩
          | some x =>
            have hx_mem := List.mem_of_find?_eq_some hf
            have hx_pred := List.find?_some hf
            simp only [Bool.and_eq_true, beq_iff_eq] at hx_pred
            have hx_in_g : x ∈ seriesGroup rows sid :=
              mem_seriesGroup.mpr ⟨hx_mem, hx_pred.1.trans hr_sid⟩
            have hxeq : x = (seriesGroup rows sid).get ⟨i - 12, hj_lt⟩ :=
              strict_date_unique hstr hx_in_g hr2_in_g (by rw [hx_pred.2, hr2dr])
            rw [hxeq]
        simp only [specYoyCalendar, hfind, hy, hv1, hv2]
      · rw [if_neg h12] at hy
        have hfind : rows.find? (fun x => x.series_id == r.series_id &&
            x.date == r.date - 12) = none := by
          rw [List.find?_eq_none]
          intro x hx hpred
          simp only [Bool.and_eq_true, beq_iff_eq] at hpred
          have hx_in_g : x ∈ seriesGroup rows sid :=
            mem_seriesGroup.mpr ⟨hx, hpred.1.trans hr_sid⟩
          obtain ⟨j, hj_lt, hgj⟩ := List.mem_iff_getElem.mp hx_in_g
          have hxdate : x.date = h0.date + (j : Int) :=
            contig_date_at _ hcg h0 hg j x (by rw [List.getElem?_eq_getElem hj_lt, hgj])
          rw [hrdate] at hpred
          omega
        simp only [specYoyCalendar, hfind, hy]
  exact ⟨hmain, fun p hp => hmain p (mem_of_mem_applyLast12 hp)⟩

/-- Counterexample to C1 as stated: the lookback of `pct_change(12)` is
positional, not calendar-based.  In a two-record series whose records are
exactly 12 calendar months apart, a record 12 months earlier exists, so
the claim demands `(110/100 - 1) * 100`, but the computed `yoy_pct` is
null (only one prior row exists in the group). -/
theorem yoy_positional_not_calendar :
    withYoy gapRows = [(exR "A" 0 100, none), (exR "A" 12 110, none)] ∧
    (exR "A" 0 100 ∈ gapRows) ∧
    (exR "A" 0 100).series_id = (exR "A" 12 110).series_id ∧
    (exR "A" 0 100).date = (exR "A" 12 110).date - 12 ∧
    specYoyCalendar gapRows (exR "A" 12 110) =
      some (((exR "A" 12 110).value / (exR "A" 0 100).value - 1) * 100) ∧
    (none : Option ℚ) ≠
      some (((exR "A" 12 110).value / (exR "A" 0 100).value - 1) * 100) := by
  refine ⟨by decide, by decide, rfl, by decide, ?_, by decide⟩
  have hf : gapRows.find? (fun x => x.series_id == (exR "A" 12 110).series_id &&
      x.date == (exR "A" 12 110).date - 12) = some (exR "A" 0 100) := by decide
  simp only [specYoyCalendar, hf]

/-- Witness for the amended C1 at the spec's 13-month example: YoY is 12.0
at month 13, null at the earlier months, and windowing does not change any
visible value. -/
theorem yoy_full_then_window_witness :
    Contiguous rows13 ∧
    specYoyCalendar rows13 (exR "A" 12 112) = some 12 ∧
    specYoyCalendar rows13 (exR "A" 5 105) = none ∧
    (∀ p ∈ withYoy rows13, p.2 = specYoyCalendar rows13 p.1) ∧
    (∀ p ∈ applyLast12 (withYoy rows13), p.2 = specYoyCalendar rows13 p.1) := by
  have hc : Contiguous rows13 := by decide
  have hth := yoy_full_then_window rows13 hc
  refine ⟨hc, ?_, ?_, hth.1, hth.2⟩
  · have hf : rows13.find? (fun x => x.series_id == (exR "A" 12 112).series_id &&
        x.date == (exR "A" 12 112).date - 12) = some (exR "A" 0 100) := by decide
    simp only [specYoyCalendar, hf]
    norm_num [exR]
  · have hf : rows13.find? (fun x => x.series_id == (exR "A" 5 105).series_id &&
        x.date == (exR "A" 5 105).date - 12) = none := by decide
    simp only [specYoyCalendar, hf]
